import Mathlib

/-!
Shallow embedding of the `fish_audio_preprocess` repository:
`utils/loudness_norm.py` (`loudness_norm`, `loudness_norm_file`) and
`cli/frequency.py` (`count_midi_from_file`).

The DSP primitives those functions call (`pyln.normalize.peak`,
`pyln.Meter(...).integrated_loudness`, `pyln.normalize.loudness`,
`librosa.hz_to_midi`, the pitch tracker) are external libraries, not part of
the repository sources; they are modelled from the specification
(spec sections 4.1-4.5, 6 and 7), while the orchestration - the order in
which the repository composes them - follows the source files.
-/

namespace FishAudio

/-- An audio buffer: a list of channels, each channel a list of samples
(spec section 3, AudioBuffer). -/
abbrev Buffer := List (List ℝ)

/-- Every sample of every channel is zero: digital silence. -/
def allZero (chs : Buffer) : Prop := ∀ ch ∈ chs, ∀ x ∈ ch, x = 0

/-- Scale every sample of every channel by the single scalar `k`. -/
def scaleBuf (k : ℝ) (chs : Buffer) : Buffer :=
  chs.map (fun ch => ch.map (fun x => k * x))

/-- Number of samples per channel (channels are equal-length by the
AudioBuffer invariant; we read the first channel, as `data.shape[0]` does). -/
def numSamples : Buffer → ℕ
  | [] => 0
  | ch :: _ => ch.length

/-- Maximum absolute sample value across all channels: the sample peak,
measured on the raw, unfiltered samples (spec 4.4). -/
noncomputable def bufPeak (chs : Buffer) : ℝ :=
  (chs.flatten.map (fun x => |x|)).foldr max 0

/-- Coefficients of one second-order IIR (biquad) filter section
(spec 4.1). -/
structure Biquad where
  b0 : ℝ
  b1 : ℝ
  b2 : ℝ
  a1 : ℝ
  a2 : ℝ

/-- Run a biquad over a sample list, carrying the two input and the two
output delay taps; `x1 x2 y1 y2` is the filter state, zero-initialised at
the cold start (spec 4.1 edge behavior). -/
noncomputable def biquadAux (c : Biquad) (x1 x2 y1 y2 : ℝ) : List ℝ → List ℝ
  | [] => []
  | x :: xs =>
    let y := c.b0 * x + c.b1 * x1 + c.b2 * x2 - c.a1 * y1 - c.a2 * y2
    y :: biquadAux c x x1 y y1 xs

/-- A biquad pass over one channel, from the zero cold-start state. -/
noncomputable def biquadFilter (c : Biquad) (l : List ℝ) : List ℝ :=
  biquadAux c 0 0 0 0 l

/-- The K-weighting pre-filter: a high-shelf stage cascaded with a
high-pass stage (spec 4.1). -/
structure KWeight where
  shelf : Biquad
  highpass : Biquad

/-- K-weight one channel: the two cascaded biquad sections, each from a
cold start; filter state is local to one channel's pass (spec 4.1). -/
noncomputable def kFilter (kw : KWeight) (l : List ℝ) : List ℝ :=
  biquadFilter kw.highpass (biquadFilter kw.shelf l)

/-- Channel weighting (spec 4.2): 1.0 for left/right/center, 1.41 for the
surround channels, 0 (excluded) beyond those. -/
noncomputable def chanWeight (i : ℕ) : ℝ :=
  if i < 3 then 1 else if i < 5 then 1.41 else 0

/-- Mean of the squared samples of a window (spec 4.2); an empty window has
mean 0. -/
noncomputable def meanSq (l : List ℝ) : ℝ :=
  (l.map (fun x => x ^ 2)).sum / l.length

/-- Arithmetic mean of a list of powers. -/
noncomputable def meanList (l : List ℝ) : ℝ := l.sum / l.length

/-- Block length in samples: round(block_duration x sample_rate)
(spec 4.2). -/
noncomputable def blockLen (bs : ℝ) (rate : ℤ) : ℕ :=
  (round (bs * (rate : ℝ))).toNat

/-- Start offsets of the analysis blocks: hop = block length / 4
(75% overlap); a buffer shorter than one block is treated as a single
block (spec 4.2). -/
def blockStarts (n T : ℕ) : List ℕ :=
  if n < T then [0]
  else (List.range ((n - T) / (T / 4) + 1)).map (fun i => i * (T / 4))

/-- Channel-weighted mean-square power of one block of the K-weighted
channels (spec 4.2): per channel, the mean of the squares over the block
window, times the weight of that channel's index, summed across channels;
`i` is the index of the first channel of `fchs`. -/
noncomputable def blockPowerChans (i : ℕ) (fchs : List (List ℝ)) (s len : ℕ) : ℝ :=
  match fchs with
  | [] => 0
  | ch :: rest => chanWeight i * meanSq ((ch.drop s).take len) + blockPowerChans (i + 1) rest s len

/-- Channel-weighted mean-square power of one block, channels indexed from
0 (spec 4.2). -/
noncomputable def blockPowerAt (fchs : List (List ℝ)) (s len : ℕ) : ℝ :=
  blockPowerChans 0 fchs s len

/-- All block powers of a buffer (spec 4.2): K-weight every channel, then
one weighted mean-square power per block; a buffer shorter than one block
averages only the available samples. -/
noncomputable def blockPowers (kw : KWeight) (rate : ℤ) (bs : ℝ) (chs : Buffer) : List ℝ :=
  let fchs := chs.map (kFilter kw)
  let n := numSamples chs
  let T := blockLen bs rate
  (blockStarts n T).map (fun s => blockPowerAt fchs s (if n < T then n else T))

/-- Loudness in LUFS of a mean power value: -0.691 + 10 log10 p
(spec 4.3). -/
noncomputable def powerLoudness (p : ℝ) : ℝ := -0.691 + 10 * Real.logb 10 p

/-- The absolute-gate threshold expressed in the power domain: a block
passes the -70 LUFS gate iff its power is at least `absGateP`
(spec 4.3 step 2); see `absGateP_le_iff_dB` for the equivalence with the
dB comparison. A zero-power block has loudness minus-infinity and is
excluded, exactly as this positive threshold excludes it. -/
noncomputable def absGateP : ℝ := (10 : ℝ) ^ (((-70 : ℝ) + 0.691) / 10)

/-- Two-pass gated integration (spec 4.3): the absolute gate at -70 LUFS,
then the relative gate 10 LU below the loudness of the survivors' mean
power, then the loudness of the mean power of the blocks surviving both
gates; `none` encodes minus-infinity (no surviving block, spec 4.3
step 5). Both gates are stated in the power domain: for positive powers
`absGateP ≤ p` is the -70 LUFS comparison and `meanList J1 / 10 ≤ p` is
the (loudness of mean - 10) comparison (see `relGate_le_iff_dB`). -/
noncomputable def gatedLoudness (ps : List ℝ) : Option ℝ :=
  let J1 := ps.filter (fun p => decide (absGateP ≤ p))
  if J1 = [] then none
  else
    let J2 := J1.filter (fun p => decide (meanList J1 / 10 ≤ p))
    if J2 = [] then none else some (powerLoudness (meanList J2))

/-- Integrated loudness (spec 4.1-4.3): K-weighting, block powers, gated
integration; `none` encodes minus-infinity. Modelled from the spec:
`pyln.Meter(rate, block_size).integrated_loudness`, which is not part of
the repository sources; the coefficient lookup `kw` maps the sample rate
to the K-weighting coefficients (spec 4.1). -/
noncomputable def integratedLoudness (kw : ℤ → KWeight) (rate : ℤ) (bs : ℝ) (chs : Buffer) :
    Option ℝ :=
  gatedLoudness (blockPowers (kw rate) rate bs chs)

/-- Peak-normalization gain (spec 4.4): scales the sample peak to exactly
10^(peak_db/20); unity gain on an entirely silent buffer (no division by
zero). Modelled from the spec: `pyln.normalize.peak`, which is not part of
the repository sources. -/
noncomputable def peakGain (tp : ℝ) (chs : Buffer) : ℝ :=
  if bufPeak chs = 0 then 1 else (10 : ℝ) ^ (tp / 20) / bufPeak chs

/-- Peak normalization: the peak gain applied uniformly to the buffer. -/
noncomputable def peakNormalize (tp : ℝ) (chs : Buffer) : Buffer :=
  scaleBuf (peakGain tp chs) chs

/-- Loudness gain (spec 4.5 step 2): 10^((target - L)/20), and unity when
L is minus-infinity (silence) rather than an infinite gain. Modelled from
the spec: `pyln.normalize.loudness`, which is not part of the repository
sources. -/
noncomputable def loudnessGain (target : ℝ) : Option ℝ → ℝ
  | none => 1
  | some L => (10 : ℝ) ^ ((target - L) / 20)

/-- Error taxonomy of the core (spec 7). -/
inductive NormError where
  | invalidParameter : NormError
deriving DecidableEq

/-- The in-memory normalization `loudness_norm` of
`utils/loudness_norm.py` lines 11-35, without parameter validation, in the
source's order: peak-normalize first, measure the integrated loudness of
the peak-normalized buffer, then apply the loudness gain to it. -/
noncomputable def loudnessNormRaw (kw : ℤ → KWeight) (chs : Buffer) (rate : ℤ)
    (tp tL bs : ℝ) : Buffer :=
  scaleBuf (loudnessGain tL (integratedLoudness kw rate bs (peakNormalize tp chs)))
    (peakNormalize tp chs)

/-- `loudness_norm` with parameter validation (spec 6 and 7: block
duration ≤ 0 or sample rate ≤ 0 is InvalidParameter and fails fast,
before any computation and with no partial output). Modelled from the
spec: the validation itself lives in the external meter construction, not
in the repository sources. -/
noncomputable def loudness_norm (kw : ℤ → KWeight) (chs : Buffer) (rate : ℤ)
    (tp tL bs : ℝ) : Except NormError Buffer :=
  if bs ≤ 0 ∨ rate ≤ 0 then .error .invalidParameter
  else .ok (loudnessNormRaw kw chs rate tp tL bs)

/-- The buffer transformation of `loudness_norm_file`
(`utils/loudness_norm.py` lines 41-48) between decode and encode, in the
source's order: measure the loudness of the raw signal, apply the loudness
gain, then peak-normalize; the meter there is created with the default
0.400 s block size. -/
noncomputable def loudness_norm_file_core (kw : ℤ → KWeight) (chs : Buffer) (rate : ℤ)
    (tp tL : ℝ) : Buffer :=
  peakNormalize tp (scaleBuf (loudnessGain tL (integratedLoudness kw rate 0.4 chs)) chs)

/-- The single scalar gain `loudness_norm` in fact applies to the input:
the peak gain times the loudness gain, with loudness measured after peak
normalization (see `C5_single_uniform_gain_amended`). -/
noncomputable def effectiveGain (kw : ℤ → KWeight) (chs : Buffer) (rate : ℤ)
    (tp tL bs : ℝ) : ℝ :=
  peakGain tp chs * loudnessGain tL (integratedLoudness kw rate bs (peakNormalize tp chs))

/-- The combined gain in the words of the spec (4.5 steps 1-4): g_loud
computed from the loudness of the raw buffer, clamped by the peak-capping
gain, min(g_loud, g_peak). Stated from the spec's words, for comparison
with `effectiveGain`. -/
noncomputable def specEffectiveGain (kw : ℤ → KWeight) (chs : Buffer) (rate : ℤ)
    (tp tL bs : ℝ) : ℝ :=
  min (loudnessGain tL (integratedLoudness kw rate bs chs)) (peakGain tp chs)

/-- Modelled from the spec: spec 4.1 says the K-weighting coefficients are
computed from, or looked up per, the sample rate, and that the standard
defines them for 48 kHz; these are ITU-R BS.1770-4's published 48 kHz
coefficients (pre-filter high shelf, then the RLB high-pass), for use at
sample rate 48000. -/
noncomputable def kw48 : ℤ → KWeight := fun _ =>
  { shelf := { b0 := 1.53512485958697, b1 := -2.69169618940638, b2 := 1.19839281085285,
               a1 := -1.69065929318241, a2 := 0.73248077421585 }
    highpass := { b0 := 1, b1 := -2, b2 := 1,
                  a1 := -1.99004745483398, a2 := 0.99007225036621 } }

/-- A pitch-frame value as produced by the external pitch tracker
(`cli/frequency.py` line 30): a finite frequency, an infinity, or NaN. -/
inductive PitchVal where
  | nan : PitchVal
  | inf : PitchVal
  | val : ℚ → PitchVal
deriving DecidableEq

/-- The frame test of `count_midi_from_file` (`cli/frequency.py` lines
33-34): frames that are infinite, NaN or 0 Hz are skipped; a surviving
frame keeps its frequency. -/
def keepPitch : PitchVal → Option ℚ
  | .nan => none
  | .inf => none
  | .val x => if x = 0 then none else some x

/-- One iteration of the loop of `count_midi_from_file`
(`cli/frequency.py` lines 32-35): skip an infinite, NaN or zero-frequency
frame, otherwise add 1 to the count of the frame's MIDI key. -/
def midiStep (h2m : ℚ → ℚ) (counter : Multiset ℚ) (i : PitchVal) : Multiset ℚ :=
  match i with
  | .nan => counter
  | .inf => counter
  | .val x => if x = 0 then counter else counter + {h2m x}

/-- `count_midi_from_file` (`cli/frequency.py` lines 17-38) as the loop it
is: starting from the empty counter, skip infinite, NaN and zero-frequency
frames, and add 1 to the count of the MIDI key of each remaining frame.
The key conversion `librosa.hz_to_midi` is an external collaborator,
passed in as `h2m`; the Counter is a multiset of MIDI keys. -/
def count_midi_from_file (h2m : ℚ → ℚ) (f0 : List PitchVal) : Multiset ℚ :=
  f0.foldl (midiStep h2m) 0

/-! ### Lemmas about scaling and the sample peak -/

lemma map_mul_of_allZero {k : ℝ} {l : List ℝ} (h : ∀ x ∈ l, x = 0) :
    l.map (fun x => k * x) = l := by
  induction l with
  | nil => rfl
  | cons x xs ih =>
    have hx : x = 0 := h x (by simp)
    simp only [List.map_cons, ih (fun y hy => h y (by simp [hy])), hx, mul_zero]

lemma scaleBuf_of_allZero {k : ℝ} {chs : Buffer} (h : allZero chs) :
    scaleBuf k chs = chs := by
  induction chs with
  | nil => rfl
  | cons ch rest ih =>
    have h1 : ∀ x ∈ ch, x = 0 := h ch (by simp)
    have h2 : allZero rest := fun c hc => h c (by simp [hc])
    simp only [scaleBuf, List.map_cons] at ih ⊢
    rw [map_mul_of_allZero h1, ih h2]

lemma scaleBuf_one (chs : Buffer) : scaleBuf 1 chs = chs := by
  simp [scaleBuf]

lemma scaleBuf_scaleBuf (a b : ℝ) (chs : Buffer) :
    scaleBuf a (scaleBuf b chs) = scaleBuf (a * b) chs := by
  simp [scaleBuf, List.map_map, Function.comp_def, mul_assoc]

lemma scaleBuf_single (k c : ℝ) : scaleBuf k [[c]] = [[k * c]] := by
  simp [scaleBuf]

lemma zero_le_foldr_max (l : List ℝ) : 0 ≤ l.foldr max 0 := by
  induction l with
  | nil => exact le_refl 0
  | cons x xs ih => exact le_trans ih (le_max_right x _)

lemma mem_le_foldr_max {l : List ℝ} {x : ℝ} (h : x ∈ l) : x ≤ l.foldr max 0 := by
  induction l with
  | nil => cases h
  | cons y ys ih =>
    rcases List.mem_cons.mp h with rfl | h2
    · exact le_max_left _ _
    · exact le_trans (ih h2) (le_max_right _ _)

lemma foldr_max_le_zero {l : List ℝ} (h : ∀ y ∈ l, y ≤ 0) : l.foldr max 0 ≤ 0 := by
  induction l with
  | nil => exact le_refl 0
  | cons y ys ih =>
    simp only [List.foldr_cons]
    exact max_le (h y (by simp)) (ih fun z hz => h z (by simp [hz]))

lemma bufPeak_nonneg (chs : Buffer) : 0 ≤ bufPeak chs := zero_le_foldr_max _

lemma abs_le_bufPeak {chs : Buffer} {x : ℝ} (h : x ∈ chs.flatten) : |x| ≤ bufPeak chs :=
  mem_le_foldr_max (List.mem_map_of_mem _ h)

lemma bufPeak_of_allZero {chs : Buffer} (h : allZero chs) : bufPeak chs = 0 := by
  refine le_antisymm (foldr_max_le_zero ?_) (bufPeak_nonneg chs)
  intro y hy
  rcases List.mem_map.mp hy with ⟨x, hx, rfl⟩
  rcases List.mem_flatten.mp hx with ⟨ch, hch, hxch⟩
  rw [h ch hch x hxch]
  simp

lemma allZero_of_bufPeak_eq_zero {chs : Buffer} (h : bufPeak chs = 0) : allZero chs := by
  intro ch hch x hx
  have hle := abs_le_bufPeak (List.mem_flatten.mpr ⟨ch, hch, hx⟩)
  rw [h] at hle
  exact abs_eq_zero.mp (le_antisymm hle (abs_nonneg x))

lemma foldr_max_abs_mul {k : ℝ} (hk : 0 ≤ k) (l : List ℝ) :
    ((l.map (fun x => k * x)).map (fun x => |x|)).foldr max 0
      = k * ((l.map (fun x => |x|)).foldr max 0) := by
  induction l with
  | nil => simp
  | cons x xs ih =>
    simp only [List.map_cons, List.foldr_cons, ih, abs_mul, abs_of_nonneg hk]
    rw [mul_max_of_nonneg _ _ hk]

lemma bufPeak_scaleBuf {k : ℝ} (hk : 0 ≤ k) (chs : Buffer) :
    bufPeak (scaleBuf k chs) = k * bufPeak chs := by
  unfold bufPeak scaleBuf
  rw [← List.map_flatten, foldr_max_abs_mul hk]

/-! ### Lemmas about the K-weighting filter -/

lemma biquadAux_allZero (c : Biquad) (l : List ℝ) (h : ∀ x ∈ l, x = 0) :
    ∀ y ∈ biquadAux c 0 0 0 0 l, y = 0 := by
  induction l with
  | nil => simp [biquadAux]
  | cons x xs ih =>
    have hx : x = 0 := h x (by simp)
    subst hx
    intro y hy
    simp only [biquadAux, mul_zero, add_zero, sub_zero, zero_add, List.mem_cons] at hy
    rcases hy with rfl | hy
    · rfl
    · exact ih (fun z hz => h z (by simp [hz])) y hy

lemma biquadFilter_allZero (c : Biquad) (l : List ℝ) (h : ∀ x ∈ l, x = 0) :
    ∀ y ∈ biquadFilter c l, y = 0 :=
  biquadAux_allZero c l h

lemma kFilter_allZero (kw : KWeight) (l : List ℝ) (h : ∀ x ∈ l, x = 0) :
    ∀ y ∈ kFilter kw l, y = 0 :=
  biquadFilter_allZero kw.highpass _ (biquadFilter_allZero kw.shelf l h)

lemma biquadFilter_single (c : Biquad) (x : ℝ) : biquadFilter c [x] = [c.b0 * x] := by
  simp [biquadFilter, biquadAux]

lemma kFilter_single (kw : KWeight) (x : ℝ) :
    kFilter kw [x] = [kw.highpass.b0 * (kw.shelf.b0 * x)] := by
  simp [kFilter, biquadFilter_single]

/-! ### Lemmas about block powers -/

lemma meanSq_allZero {l : List ℝ} (h : ∀ x ∈ l, x = 0) : meanSq l = 0 := by
  unfold meanSq
  rw [List.sum_eq_zero, zero_div]
  intro y hy
  rcases List.mem_map.mp hy with ⟨x, hx, rfl⟩
  rw [h x hx]
  ring

lemma meanSq_single (x : ℝ) : meanSq [x] = x ^ 2 := by
  simp [meanSq]

lemma meanList_single (x : ℝ) : meanList [x] = x := by
  simp [meanList]

lemma blockPowerChans_allZero (i s len : ℕ) (fchs : List (List ℝ))
    (h : ∀ ch ∈ fchs, ∀ x ∈ ch, x = 0) :
    blockPowerChans i fchs s len = 0 := by
  induction fchs generalizing i with
  | nil => rfl
  | cons ch rest ih =>
    rw [blockPowerChans]
    have hwin : ∀ x ∈ (ch.drop s).take len, x = 0 := by
      intro x hx
      exact h ch (by simp) x (List.mem_of_mem_drop (List.mem_of_mem_take hx))
    rw [meanSq_allZero hwin, mul_zero, zero_add]
    exact ih (i + 1) (fun c hc => h c (by simp [hc]))

lemma blockPowers_allZero (kw : KWeight) (rate : ℤ) (bs : ℝ) {chs : Buffer}
    (h : allZero chs) : ∀ p ∈ blockPowers kw rate bs chs, p = 0 := by
  intro p hp
  unfold blockPowers at hp
  rcases List.mem_map.mp hp with ⟨s, _, rfl⟩
  apply blockPowerChans_allZero
  intro fch hfch
  rcases List.mem_map.mp hfch with ⟨ch, hch, rfl⟩
  exact kFilter_allZero kw ch (h ch hch)

/-! ### Lemmas about the gated integration -/

lemma absGateP_pos : 0 < absGateP := Real.rpow_pos_of_pos (by norm_num) _

lemma gatedLoudness_of_allZero {ps : List ℝ} (h : ∀ p ∈ ps, p = 0) :
    gatedLoudness ps = none := by
  unfold gatedLoudness
  have hfil : ps.filter (fun p => decide (absGateP ≤ p)) = [] := by
    rw [List.filter_eq_nil_iff]
    intro p hp
    rw [h p hp]
    simpa using not_le.mpr absGateP_pos
  simp [hfil]

lemma gatedLoudness_singleton {p : ℝ} (hp : absGateP ≤ p) :
    gatedLoudness [p] = some (powerLoudness p) := by
  have hp0 : 0 < p := lt_of_lt_of_le absGateP_pos hp
  have hrel : p / 10 ≤ p := by linarith
  simp [gatedLoudness, meanList, hp, hrel]

/-- Faithfulness of the power-domain absolute gate: for a positive block
power, `absGateP ≤ p` is exactly the spec's comparison of the block
loudness with -70 LUFS (spec 4.3 step 2). -/
lemma absGateP_le_iff_dB {p : ℝ} (hp : 0 < p) :
    absGateP ≤ p ↔ (-70 : ℝ) ≤ powerLoudness p := by
  unfold absGateP powerLoudness
  rw [Real.le_logb_iff_rpow_le (by norm_num) hp |>.symm]
  constructor <;> intro h <;> linarith

/-- Faithfulness of the power-domain relative gate: for positive powers,
`m / 10 ≤ p` is exactly the spec's comparison of the block loudness with
the loudness of the survivors' mean power minus 10 LU (spec 4.3
step 3). -/
lemma relGate_le_iff_dB {p m : ℝ} (hp : 0 < p) (hm : 0 < m) :
    m / 10 ≤ p ↔ powerLoudness m - 10 ≤ powerLoudness p := by
  have h10 : (1 : ℝ) < 10 := by norm_num
  have hdiv : Real.logb 10 (m / 10) = Real.logb 10 m - 1 := by
    rw [Real.logb_div hm.ne' (by norm_num), Real.logb_self_eq_one (by norm_num : (1:ℝ) < 10)]
  constructor
  · intro h
    have := Real.logb_le_logb_of_le h10 (by positivity) h
    rw [hdiv] at this
    unfold powerLoudness
    linarith
  · intro h
    unfold powerLoudness at h
    have hlog : Real.logb 10 (m / 10) ≤ Real.logb 10 p := by
      rw [hdiv]; linarith
    exact (Real.logb_le_logb h10 (by positivity) hp).mp hlog

/-! ### Lemmas about the gains and the pipeline -/

lemma loudnessGain_pos (t : ℝ) (L : Option ℝ) : 0 < loudnessGain t L := by
  cases L with
  | none => norm_num [loudnessGain]
  | some l => exact Real.rpow_pos_of_pos (by norm_num) _

lemma peakGain_pos (tp : ℝ) (chs : Buffer) : 0 < peakGain tp chs := by
  unfold peakGain
  split
  · norm_num
  · have hp : 0 < bufPeak chs := lt_of_le_of_ne (bufPeak_nonneg chs) (Ne.symm (by assumption))
    exact div_pos (Real.rpow_pos_of_pos (by norm_num) _) hp

lemma peakGain_of_allZero (tp : ℝ) {chs : Buffer} (h : allZero chs) :
    peakGain tp chs = 1 := by
  simp [peakGain, bufPeak_of_allZero h]

lemma peakNormalize_of_allZero (tp : ℝ) {chs : Buffer} (h : allZero chs) :
    peakNormalize tp chs = chs := by
  rw [peakNormalize, peakGain_of_allZero tp h, scaleBuf_one]

lemma integratedLoudness_of_allZero (kw : ℤ → KWeight) (rate : ℤ) (bs : ℝ)
    {chs : Buffer} (h : allZero chs) : integratedLoudness kw rate bs chs = none :=
  gatedLoudness_of_allZero (blockPowers_allZero (kw rate) rate bs h)

/-- After peak normalization the sample peak is at most the target peak:
it equals the target for a non-silent buffer and is 0 for silence. -/
lemma bufPeak_peakNormalize_le (tp : ℝ) (chs : Buffer) :
    bufPeak (peakNormalize tp chs) ≤ (10 : ℝ) ^ (tp / 20) := by
  unfold peakNormalize peakGain
  by_cases hp : bufPeak chs = 0
  · rw [if_pos hp, scaleBuf_one, hp]
    exact (Real.rpow_pos_of_pos (by norm_num) _).le
  · have hpos : 0 < bufPeak chs := lt_of_le_of_ne (bufPeak_nonneg chs) (Ne.symm hp)
    rw [if_neg hp, bufPeak_scaleBuf (by positivity), div_mul_cancel₀ _ hp]

/-- Peak normalization is invariant under a uniform positive input gain:
the defining scale-consistency of the in-memory path's measurement. -/
lemma peakNormalize_scaleBuf {k : ℝ} (hk : 0 < k) (tp : ℝ) (chs : Buffer) :
    peakNormalize tp (scaleBuf k chs) = peakNormalize tp chs := by
  unfold peakNormalize peakGain
  rw [bufPeak_scaleBuf hk.le]
  by_cases hp : bufPeak chs = 0
  · have hz : allZero chs := allZero_of_bufPeak_eq_zero hp
    rw [hp, mul_zero, if_pos rfl, scaleBuf_one, scaleBuf_one, scaleBuf_of_allZero hz]
  · have hkp : k * bufPeak chs ≠ 0 := mul_ne_zero hk.ne' hp
    rw [if_neg hkp, if_neg hp, scaleBuf_scaleBuf]
    congr 1
    field_simp
    ring

/-! ### Helpers about powers of ten -/

lemma rpow_ten_pos (a : ℝ) : 0 < (10 : ℝ) ^ a := Real.rpow_pos_of_pos (by norm_num) _

lemma rpow_ten_le {a b : ℝ} (h : a ≤ b) : (10 : ℝ) ^ a ≤ (10 : ℝ) ^ b :=
  (Real.rpow_le_rpow_left_iff (by norm_num)).mpr h

lemma rpow_ten_le_one {a : ℝ} (h : a ≤ 0) : (10 : ℝ) ^ a ≤ 1 := by
  have := rpow_ten_le h
  rwa [Real.rpow_zero] at this

lemma one_div_ten_le_rpow {a : ℝ} (h : (-1 : ℝ) ≤ a) : (1 : ℝ) / 10 ≤ (10 : ℝ) ^ a := by
  have := rpow_ten_le h
  rwa [show ((10 : ℝ) ^ (-1 : ℝ)) = 1 / 10 by
    rw [Real.rpow_neg (by norm_num), Real.rpow_one]; norm_num] at this

lemma ten_rpow_four : (10 : ℝ) ^ (4 : ℝ) = 10000 := by
  rw [show (4 : ℝ) = ((4 : ℕ) : ℝ) by norm_num, Real.rpow_natCast]
  norm_num

/-- For a mean power at most 10 (and positive), the resulting loudness is
at most -0.691 + 10 = 9.309 LUFS. -/
lemma powerLoudness_le_of_le_ten {p : ℝ} (hp : 0 < p) (h : p ≤ 10) :
    powerLoudness p ≤ 9.309 := by
  unfold powerLoudness
  have hlog : Real.logb 10 p ≤ Real.logb 10 10 :=
    Real.logb_le_logb_of_le (by norm_num) hp h
  rw [Real.logb_self_eq_one (by norm_num : (1:ℝ) < 10)] at hlog
  linarith

/-! ### Evaluation on one-sample mono buffers -/

lemma bufPeak_single (c : ℝ) : bufPeak [[c]] = |c| := by
  unfold bufPeak
  simp [max_eq_left (abs_nonneg c)]

lemma peakNormalize_single_pos (tp : ℝ) {c : ℝ} (hc : 0 < c) :
    peakNormalize tp [[c]] = [[(10 : ℝ) ^ (tp / 20)]] := by
  unfold peakNormalize peakGain
  rw [bufPeak_single, abs_of_pos hc, if_neg hc.ne', scaleBuf_single,
    div_mul_cancel₀ _ hc.ne']

lemma blockLen_eval : blockLen 0.4 48000 = 19200 := by
  unfold blockLen
  have h1 : (0.4 : ℝ) * ((48000 : ℤ) : ℝ) = ((19200 : ℤ) : ℝ) := by norm_num
  rw [h1, round_intCast]
  rfl

lemma blockPowers_single (kw : KWeight) (c : ℝ) :
    blockPowers kw 48000 0.4 [[c]] = [(kw.highpass.b0 * (kw.shelf.b0 * c)) ^ 2] := by
  unfold blockPowers
  rw [blockLen_eval]
  simp only [List.map_cons, List.map_nil, kFilter_single, numSamples, List.length_cons,
    List.length_nil]
  norm_num [blockStarts, blockPowerAt, blockPowerChans, chanWeight, meanSq_single]

lemma integratedLoudness_single (kw : ℤ → KWeight) (c : ℝ) :
    integratedLoudness kw 48000 0.4 [[c]]
      = gatedLoudness [((kw 48000).highpass.b0 * ((kw 48000).shelf.b0 * c)) ^ 2] := by
  unfold integratedLoudness
  rw [blockPowers_single]

lemma integratedLoudness_kw48_single (c : ℝ) :
    integratedLoudness kw48 48000 0.4 [[c]]
      = gatedLoudness [((1.53512485958697 : ℝ) * c) ^ 2] := by
  rw [integratedLoudness_single]
  norm_num [kw48]

/-- The square of the -1 dB linear peak target, as a power of ten. -/
lemma sq_peak_target : ((10 : ℝ) ^ ((-1 : ℝ) / 20)) ^ 2 = (10 : ℝ) ^ ((-1 : ℝ) / 10) := by
  rw [← Real.rpow_natCast ((10 : ℝ) ^ ((-1 : ℝ) / 20)) 2,
    ← Real.rpow_mul (by norm_num : (0 : ℝ) ≤ 10)]
  norm_num

/-- The peak-normalized one-sample block passes the absolute gate. -/
lemma gate_pass_q :
    absGateP ≤ ((1.53512485958697 : ℝ) * (10 : ℝ) ^ ((-1 : ℝ) / 20)) ^ 2 := by
  have hq : (0 : ℝ) < (10 : ℝ) ^ ((-1 : ℝ) / 20) := rpow_ten_pos _
  have h1 : (10 : ℝ) ^ ((-1 : ℝ) / 10)
      ≤ ((1.53512485958697 : ℝ) * (10 : ℝ) ^ ((-1 : ℝ) / 20)) ^ 2 := by
    rw [mul_pow, sq_peak_target]
    nlinarith [rpow_ten_pos ((-1 : ℝ) / 10)]
  refine le_trans (rpow_ten_le ?_) h1
  norm_num

/-- The measured loudness of the peak-normalized one-sample buffer is at
most 9.309 LUFS (its weighted power is at most 10). -/
lemma measured_q_le :
    powerLoudness (((1.53512485958697 : ℝ) * (10 : ℝ) ^ ((-1 : ℝ) / 20)) ^ 2) ≤ 9.309 := by
  have hq : (0 : ℝ) < (10 : ℝ) ^ ((-1 : ℝ) / 20) := rpow_ten_pos _
  have hq1 : (10 : ℝ) ^ ((-1 : ℝ) / 20) ≤ 1 := rpow_ten_le_one (by norm_num)
  refine powerLoudness_le_of_le_ten (by positivity) ?_
  nlinarith

lemma rpow_ten_lt {a b : ℝ} (h : a < b) : (10 : ℝ) ^ a < (10 : ℝ) ^ b :=
  (Real.rpow_lt_rpow_left_iff (by norm_num)).mpr h

/-- A power of the form 10^((L + 0.691)/10) has block loudness exactly L. -/
lemma powerLoudness_rpow (L : ℝ) : powerLoudness ((10 : ℝ) ^ ((L + 0.691) / 10)) = L := by
  unfold powerLoudness
  rw [Real.logb_rpow (by norm_num : (0 : ℝ) < 10) (by norm_num : (10 : ℝ) ≠ 1)]
  ring

/-- Gating a two-block power list whose first block fails the absolute
gate and whose second passes it: the result is the loudness of the second
block alone. -/
lemma gatedLoudness_pair_drop_first {p q : ℝ} (hp : ¬ absGateP ≤ p) (hq : absGateP ≤ q) :
    gatedLoudness [p, q] = some (powerLoudness q) := by
  have hq0 : 0 < q := lt_of_lt_of_le absGateP_pos hq
  have hrel : q / 10 ≤ q := by linarith
  simp [gatedLoudness, meanList, hp, hq, hrel]

/-- The loudness gain for target 100 LUFS of the measured one-sample
loudness is at least 10000. -/
lemma gain_of_some_ge :
    10000 ≤ loudnessGain 100
      (some (powerLoudness (((1.53512485958697 : ℝ) * (10 : ℝ) ^ ((-1 : ℝ) / 20)) ^ 2))) := by
  have hL := measured_q_le
  simp only [loudnessGain]
  calc (10000 : ℝ) = (10 : ℝ) ^ (4 : ℝ) := ten_rpow_four.symm
    _ ≤ _ := rpow_ten_le (by linarith)

/-- The loudness gain computed inside `loudness_norm` on the one-sample
buffer `[[1]]` with peak target -1 dB and loudness target 100 LUFS is at
least 10000. -/
lemma inMem_gain_ge :
    10000 ≤ loudnessGain 100
      (integratedLoudness kw48 48000 0.4 (peakNormalize (-1) [[(1 : ℝ)]])) := by
  rw [peakNormalize_single_pos _ one_pos, integratedLoudness_kw48_single,
    gatedLoudness_singleton gate_pass_q]
  exact gain_of_some_ge

/-- The in-memory pipeline on `[[1]]` with peak target -1 dB and loudness
target 100 LUFS, fully evaluated to the single output sample. -/
lemma loudnessNormRaw_one_eval :
    loudnessNormRaw kw48 [[(1 : ℝ)]] 48000 (-1) 100 0.4
      = [[loudnessGain 100
            (some (powerLoudness (((1.53512485958697 : ℝ) * (10 : ℝ) ^ ((-1 : ℝ) / 20)) ^ 2)))
          * (10 : ℝ) ^ ((-1 : ℝ) / 20)]] := by
  unfold loudnessNormRaw
  rw [peakNormalize_single_pos _ one_pos, integratedLoudness_kw48_single,
    gatedLoudness_singleton gate_pass_q, scaleBuf_single]

/-- The in-memory output peak on that input is at least 1000. -/
lemma inMem_peak_large :
    1000 ≤ bufPeak (loudnessNormRaw kw48 [[(1 : ℝ)]] 48000 (-1) 100 0.4) := by
  rw [loudnessNormRaw_one_eval, bufPeak_single]
  have hg := gain_of_some_ge
  have hq0 : (0 : ℝ) < (10 : ℝ) ^ ((-1 : ℝ) / 20) := rpow_ten_pos _
  have hq10 : (1 : ℝ) / 10 ≤ (10 : ℝ) ^ ((-1 : ℝ) / 20) := one_div_ten_le_rpow (by norm_num)
  rw [abs_of_pos (by positivity)]
  nlinarith

/-- Unrolling the counting loop of `count_midi_from_file` from any
accumulator: the loop adds one key `h2m x` per surviving frame. -/
lemma foldl_midiStep (h2m : ℚ → ℚ) (f0 : List PitchVal) :
    ∀ acc : Multiset ℚ,
      f0.foldl (midiStep h2m) acc = acc + (((f0.filterMap keepPitch).map h2m : List ℚ) : Multiset ℚ) := by
  induction f0 with
  | nil => intro acc; simp
  | cons v vs ih =>
    intro acc
    cases v with
    | nan => simp [midiStep, keepPitch, ih]
    | inf => simp [midiStep, keepPitch, ih]
    | val x =>
      by_cases hx : x = 0
      · simp [midiStep, keepPitch, hx, ih]
      · simp only [List.foldl_cons, midiStep, if_neg hx, ih, List.filterMap_cons, keepPitch,
          List.map_cons]
        rw [← Multiset.cons_coe, ← Multiset.singleton_add, add_assoc]

/-! ### Claim theorems -/

/-- C1, counterexample: the claim says that for every input and parameter
set the buffer returned by `loudness_norm` has peak at most
10^(peak_target_db/20) + eps. On the one-sample buffer `[[1]]` with peak
target -1 dB and loudness target 100 LUFS (targets may be any real value,
spec 6), the output peak exceeds the target peak 10^(-1/20) by more than
100: peak-capping is not the final, binding constraint of the in-memory
path, which applies the peak gain first and the loudness gain last. -/
theorem C1_peak_ceiling_cex :
    (10 : ℝ) ^ ((-1 : ℝ) / 20) + 100
        < bufPeak (loudnessNormRaw kw48 [[(1 : ℝ)]] 48000 (-1) 100 0.4)
    ∧ loudness_norm kw48 [[(1 : ℝ)]] 48000 (-1) 100 0.4
        = .ok (loudnessNormRaw kw48 [[(1 : ℝ)]] 48000 (-1) 100 0.4) := by
  constructor
  · have h1 := inMem_peak_large
    have hq1 : (10 : ℝ) ^ ((-1 : ℝ) / 20) ≤ 1 := rpow_ten_le_one (by norm_num)
    linarith
  · unfold loudness_norm
    rw [if_neg]
    simp only [not_or, not_le]
    constructor <;> norm_num

/-- C1, amended: whenever the loudness gain computed inside
`loudness_norm` (from the loudness measured after peak normalization) is
at most 1, the output peak is at most 10^(peak_target_db/20); the bound
fails exactly when that gain exceeds 1 (content quieter than the loudness
target), as the counterexample shows. -/
theorem C1_peak_ceiling_amended (kw : ℤ → KWeight) (chs : Buffer) (rate : ℤ) (tp tL bs : ℝ)
    (h : loudnessGain tL (integratedLoudness kw rate bs (peakNormalize tp chs)) ≤ 1) :
    bufPeak (loudnessNormRaw kw chs rate tp tL bs) ≤ (10 : ℝ) ^ (tp / 20) := by
  unfold loudnessNormRaw
  have hg0 : 0 < loudnessGain tL (integratedLoudness kw rate bs (peakNormalize tp chs)) :=
    loudnessGain_pos _ _
  rw [bufPeak_scaleBuf hg0.le]
  have hb := bufPeak_peakNormalize_le tp chs
  have hbn := bufPeak_nonneg (peakNormalize tp chs)
  have hrp := rpow_ten_pos (tp / 20)
  nlinarith

/-- C1, witness for the amended theorem: a silent two-sample buffer, whose
loudness gain is unity. -/
theorem C1_peak_ceiling_amended_witness :
    bufPeak (loudnessNormRaw kw48 [[(0 : ℝ), 0]] 48000 (-1) (-23) 0.4)
      ≤ (10 : ℝ) ^ ((-1 : ℝ) / 20) := by
  have hz : allZero [[(0 : ℝ), 0]] := by
    intro ch hch x hx
    simp only [List.mem_cons, List.not_mem_nil, or_false] at hch
    subst hch
    simp only [List.mem_cons, List.not_mem_nil, or_false] at hx
    rcases hx with rfl | rfl <;> rfl
  refine C1_peak_ceiling_amended kw48 [[(0 : ℝ), 0]] 48000 (-1) (-23) 0.4 ?_
  rw [peakNormalize_of_allZero _ hz, integratedLoudness_of_allZero kw48 48000 0.4 hz]
  exact le_refl 1

/-- C2: for every all-zero input buffer (any length, any channel count)
and valid parameters, `loudness_norm` returns the all-zero buffer itself
(so no NaN anywhere), the measured integrated loudness is minus-infinity
(`none`, not NaN and not an error), the loudness gain is unity, and the
peak-normalization stage returns unity gain with no division by zero. -/
theorem C2_silence_degenerate (kw : ℤ → KWeight) (chs : Buffer) (rate : ℤ) (tp tL bs : ℝ)
    (hr : 0 < rate) (hb : 0 < bs) (hz : allZero chs) :
    loudness_norm kw chs rate tp tL bs = .ok chs
    ∧ integratedLoudness kw rate bs (peakNormalize tp chs) = none
    ∧ loudnessGain tL (integratedLoudness kw rate bs (peakNormalize tp chs)) = 1
    ∧ peakGain tp chs = 1 := by
  have hpn : peakNormalize tp chs = chs := peakNormalize_of_allZero tp hz
  have hil : integratedLoudness kw rate bs (peakNormalize tp chs) = none := by
    rw [hpn]
    exact integratedLoudness_of_allZero kw rate bs hz
  refine ⟨?_, hil, ?_, peakGain_of_allZero tp hz⟩
  · have hraw : loudnessNormRaw kw chs rate tp tL bs = chs := by
      unfold loudnessNormRaw
      rw [hil, hpn]
      show scaleBuf (loudnessGain tL none) chs = chs
      simp only [loudnessGain]
      exact scaleBuf_one chs
    unfold loudness_norm
    rw [if_neg (by simp only [not_or, not_le]; exact ⟨hb, hr⟩), hraw]
  · rw [hil]
    rfl

/-- C2, witness: a concrete silent stereo buffer of two samples per
channel. -/
theorem C2_silence_degenerate_witness :
    loudness_norm kw48 [[(0 : ℝ), 0], [0, 0]] 48000 (-1) (-23) 0.4
        = .ok [[(0 : ℝ), 0], [0, 0]]
    ∧ integratedLoudness kw48 48000 0.4 (peakNormalize (-1) [[(0 : ℝ), 0], [0, 0]]) = none
    ∧ loudnessGain (-23)
        (integratedLoudness kw48 48000 0.4 (peakNormalize (-1) [[(0 : ℝ), 0], [0, 0]])) = 1
    ∧ peakGain (-1) [[(0 : ℝ), 0], [0, 0]] = 1 := by
  refine C2_silence_degenerate kw48 [[(0 : ℝ), 0], [0, 0]] 48000 (-1) (-23) 0.4
    (by norm_num) (by norm_num) ?_
  intro ch hch x hx
  simp only [List.mem_cons, List.not_mem_nil, or_false] at hch
  rcases hch with rfl | rfl <;>
    · simp only [List.mem_cons, List.not_mem_nil, or_false] at hx
      rcases hx with rfl | rfl <;> rfl

/-- C3: `loudness_norm` fails if and only if a parameter is invalid
(block duration ≤ 0 or sample rate ≤ 0); for every buffer - silence,
clipping, shorter than one block - with valid parameters it returns a
defined output buffer (the embedding is total, so termination is
inherent). -/
theorem C3_failure_iff_invalid_params (kw : ℤ → KWeight) (chs : Buffer) (rate : ℤ)
    (tp tL bs : ℝ) :
    (∃ out, loudness_norm kw chs rate tp tL bs = .ok out) ↔ (0 < bs ∧ 0 < rate) := by
  unfold loudness_norm
  by_cases h : bs ≤ 0 ∨ rate ≤ 0
  · rw [if_pos h]
    constructor
    · rintro ⟨out, hout⟩
      exact absurd hout (by simp)
    · rintro ⟨h1, h2⟩
      rcases h with h | h <;> linarith
  · rw [if_neg h]
    push_neg at h
    exact ⟨fun _ => h, fun _ => ⟨_, rfl⟩⟩

/-- C3, witness: with the default valid parameters the function returns a
buffer, and with a zero block duration it does not. -/
theorem C3_failure_iff_invalid_params_witness :
    (∃ out, loudness_norm kw48 [[(1 : ℝ)]] 48000 (-1) (-23) 0.4 = .ok out)
    ∧ ¬ (∃ out, loudness_norm kw48 [[(1 : ℝ)]] 48000 (-1) (-23) 0 = .ok out) := by
  constructor
  · exact (C3_failure_iff_invalid_params kw48 [[(1 : ℝ)]] 48000 (-1) (-23) 0.4).mpr
      ⟨by norm_num, by norm_num⟩
  · intro hcontra
    have := (C3_failure_iff_invalid_params kw48 [[(1 : ℝ)]] 48000 (-1) (-23) 0).mp hcontra
    exact absurd this.1 (by norm_num)

/-- C4: with block duration ≤ 0 or sample rate ≤ 0, `loudness_norm`
returns exactly the InvalidParameter failure: no output buffer exists and
no gain has been applied to anything (the result carries no buffer at
all). -/
theorem C4_invalid_fails_fast (kw : ℤ → KWeight) (chs : Buffer) (rate : ℤ) (tp tL bs : ℝ)
    (h : bs ≤ 0 ∨ rate ≤ 0) :
    loudness_norm kw chs rate tp tL bs = .error .invalidParameter := by
  unfold loudness_norm
  rw [if_pos h]

/-- C4, witness: zero block duration. -/
theorem C4_invalid_fails_fast_witness :
    loudness_norm kw48 [[(1 : ℝ)]] 48000 (-1) (-23) 0 = .error .invalidParameter :=
  C4_invalid_fails_fast kw48 [[(1 : ℝ)]] 48000 (-1) (-23) 0 (Or.inl le_rfl)

/-- C5, counterexample: the claim says the single scalar gain applied by
`loudness_norm` equals min(g_loud, g_peak_equivalent). On the one-sample
buffer `[[1]]` with peak target -1 dB and loudness target 100 LUFS the
gain actually applied is at least 1000, while the spec's clamped gain is
at most the peak gain, which is at most 1: the two differ. -/
theorem C5_min_gain_cex :
    effectiveGain kw48 [[(1 : ℝ)]] 48000 (-1) 100 0.4
      ≠ specEffectiveGain kw48 [[(1 : ℝ)]] 48000 (-1) 100 0.4 := by
  have hq1 : (10 : ℝ) ^ ((-1 : ℝ) / 20) ≤ 1 := rpow_ten_le_one (by norm_num)
  have hq0 : (0 : ℝ) < (10 : ℝ) ^ ((-1 : ℝ) / 20) := rpow_ten_pos _
  have hpg : peakGain (-1) [[(1 : ℝ)]] = (10 : ℝ) ^ ((-1 : ℝ) / 20) := by
    unfold peakGain
    rw [bufPeak_single, abs_one, if_neg one_ne_zero, div_one]
  have hspec : specEffectiveGain kw48 [[(1 : ℝ)]] 48000 (-1) 100 0.4 ≤ 1 := by
    unfold specEffectiveGain
    exact le_trans (min_le_right _ _) (by rw [hpg]; exact hq1)
  have heff : 1000 ≤ effectiveGain kw48 [[(1 : ℝ)]] 48000 (-1) 100 0.4 := by
    unfold effectiveGain
    rw [hpg]
    have hg := inMem_gain_ge
    have hq10 : (1 : ℝ) / 10 ≤ (10 : ℝ) ^ ((-1 : ℝ) / 20) := one_div_ten_le_rpow (by norm_num)
    nlinarith
  intro hEq
  rw [hEq] at heff
  linarith

/-- C5, amended: `loudness_norm` does apply one single scalar gain
uniformly to every sample of every channel - all channels of the output
are the same scalar multiple of the input - but that scalar is
`peakGain * loudnessGain` (loudness measured after peak normalization),
not min(g_loud, g_peak_equivalent). -/
theorem C5_single_uniform_gain_amended (kw : ℤ → KWeight) (chs : Buffer) (rate : ℤ)
    (tp tL bs : ℝ) (hb : 0 < bs) (hr : 0 < rate) :
    loudness_norm kw chs rate tp tL bs
      = .ok (scaleBuf (effectiveGain kw chs rate tp tL bs) chs) := by
  unfold loudness_norm
  rw [if_neg (by simp only [not_or, not_le]; exact ⟨hb, hr⟩)]
  have hraw : loudnessNormRaw kw chs rate tp tL bs
      = scaleBuf (effectiveGain kw chs rate tp tL bs) chs := by
    unfold loudnessNormRaw effectiveGain
    rw [mul_comm (peakGain tp chs)
      (loudnessGain tL (integratedLoudness kw rate bs (peakNormalize tp chs))),
      ← scaleBuf_scaleBuf]
    rfl
  rw [hraw]

/-- C5, witness for the amended theorem, at the default parameters. -/
theorem C5_single_uniform_gain_amended_witness :
    loudness_norm kw48 [[(1 : ℝ)]] 48000 (-1) (-23) 0.4
      = .ok (scaleBuf (effectiveGain kw48 [[(1 : ℝ)]] 48000 (-1) (-23) 0.4) [[(1 : ℝ)]]) :=
  C5_single_uniform_gain_amended kw48 [[(1 : ℝ)]] 48000 (-1) (-23) 0.4
    (by norm_num) (by norm_num)

/-- C6: the two-pass gating of the integrated-loudness measurement, on a
two-block signal with one block at -80 LUFS (below the -70 LUFS absolute
gate) and one at -20 LUFS: the quiet block is discarded by the absolute
gate, the loud block survives the relative gate (its loudness is not
below mean - 10), and the integrated loudness equals the loud block's
loudness, -20 LUFS. -/
theorem C6_two_block_gating :
    gatedLoudness [(10 : ℝ) ^ (((-80 : ℝ) + 0.691) / 10),
                   (10 : ℝ) ^ (((-20 : ℝ) + 0.691) / 10)]
      = some (-20)
    ∧ powerLoudness ((10 : ℝ) ^ (((-80 : ℝ) + 0.691) / 10)) = -80
    ∧ powerLoudness ((10 : ℝ) ^ (((-20 : ℝ) + 0.691) / 10)) = -20 := by
  have h80 : powerLoudness ((10 : ℝ) ^ (((-80 : ℝ) + 0.691) / 10)) = -80 :=
    powerLoudness_rpow (-80)
  have h20 : powerLoudness ((10 : ℝ) ^ (((-20 : ℝ) + 0.691) / 10)) = -20 :=
    powerLoudness_rpow (-20)
  have hfail : ¬ absGateP ≤ (10 : ℝ) ^ (((-80 : ℝ) + 0.691) / 10) := by
    apply not_le.mpr
    apply rpow_ten_lt
    norm_num
  have hpass : absGateP ≤ (10 : ℝ) ^ (((-20 : ℝ) + 0.691) / 10) := by
    apply rpow_ten_le
    norm_num
  refine ⟨?_, h80, h20⟩
  rw [gatedLoudness_pair_drop_first hfail hpass, h20]

/-- C7: on the clipping-prone one-sample buffer `[[1]]` with identical
parameters (peak target -1 dB, loudness target 100 LUFS, block size
0.4 s), the in-memory path `loudness_norm` (peak gain first, loudness
gain last) and the normalization of the file-based path
`loudness_norm_file` (loudness gain first, peak gain last) produce
different output buffers. -/
theorem C7_two_paths_differ :
    loudness_norm kw48 [[(1 : ℝ)]] 48000 (-1) 100 0.4
        = .ok (loudnessNormRaw kw48 [[(1 : ℝ)]] 48000 (-1) 100 0.4)
    ∧ loudnessNormRaw kw48 [[(1 : ℝ)]] 48000 (-1) 100 0.4
        ≠ loudness_norm_file_core kw48 [[(1 : ℝ)]] 48000 (-1) 100 := by
  constructor
  · unfold loudness_norm
    rw [if_neg]
    simp only [not_or, not_le]
    constructor <;> norm_num
  · have hfile : loudness_norm_file_core kw48 [[(1 : ℝ)]] 48000 (-1) 100
        = [[(10 : ℝ) ^ ((-1 : ℝ) / 20)]] := by
      unfold loudness_norm_file_core
      rw [scaleBuf_single, mul_one]
      exact peakNormalize_single_pos _ (loudnessGain_pos _ _)
    rw [hfile, loudnessNormRaw_one_eval]
    intro h
    have hq0 : (0 : ℝ) < (10 : ℝ) ^ ((-1 : ℝ) / 20) := rpow_ten_pos _
    have hg := gain_of_some_ge
    have heq : loudnessGain 100
          (some (powerLoudness (((1.53512485958697 : ℝ) * (10 : ℝ) ^ ((-1 : ℝ) / 20)) ^ 2)))
          * (10 : ℝ) ^ ((-1 : ℝ) / 20)
        = (10 : ℝ) ^ ((-1 : ℝ) / 20) := by
      simpa using h
    have hfac : (loudnessGain 100
          (some (powerLoudness (((1.53512485958697 : ℝ) * (10 : ℝ) ^ ((-1 : ℝ) / 20)) ^ 2))) - 1)
          * (10 : ℝ) ^ ((-1 : ℝ) / 20) = 0 := by
      rw [sub_mul, one_mul, heq, sub_self]
    rcases mul_eq_zero.mp hfac with hone | hzero
    · linarith
    · linarith

/-- C8: the integrated-loudness measurement made inside `loudness_norm`
(loudness of the peak-normalized buffer) is gain-consistent: scaling
every sample of the input by any positive constant k beforehand yields
the identical measurement, because peak normalization cancels any uniform
positive input gain. -/
theorem C8_measurement_scale_invariant (kw : ℤ → KWeight) (chs : Buffer) (rate : ℤ)
    (tp bs : ℝ) {k : ℝ} (hk : 0 < k) :
    integratedLoudness kw rate bs (peakNormalize tp (scaleBuf k chs))
      = integratedLoudness kw rate bs (peakNormalize tp chs) := by
  rw [peakNormalize_scaleBuf hk]

/-- C8, witness: doubling the one-sample buffer leaves the measurement
made inside `loudness_norm` unchanged. -/
theorem C8_measurement_scale_invariant_witness :
    integratedLoudness kw48 48000 0.4 (peakNormalize (-1) (scaleBuf 2 [[(1 : ℝ)]]))
      = integratedLoudness kw48 48000 0.4 (peakNormalize (-1) [[(1 : ℝ)]]) :=
  C8_measurement_scale_invariant kw48 [[(1 : ℝ)]] 48000 (-1) 0.4 (by norm_num)

/-- C10: `count_midi_from_file` builds its Counter only from frames whose
frequency is finite and nonzero - a frame is skipped iff it is NaN,
infinite or 0 Hz - each surviving frame contributes exactly one count to
its MIDI key `h2m` of the frequency (the counter is exactly the multiset
of keys of the surviving frames, so each key's count is its number of
surviving frames), and the total count equals the number of surviving
frames. -/
theorem C10_count_midi_structure (h2m : ℚ → ℚ) (f0 : List PitchVal) :
    count_midi_from_file h2m f0 = (((f0.filterMap keepPitch).map h2m : List ℚ) : Multiset ℚ)
    ∧ Multiset.card (count_midi_from_file h2m f0) = (f0.filterMap keepPitch).length
    ∧ (∀ k : ℚ, (count_midi_from_file h2m f0).count k
        = ((f0.filterMap keepPitch).map h2m).count k)
    ∧ (∀ v : PitchVal, keepPitch v = none ↔ (v = .nan ∨ v = .inf ∨ v = .val 0)) := by
  have h1 : count_midi_from_file h2m f0
      = (((f0.filterMap keepPitch).map h2m : List ℚ) : Multiset ℚ) := by
    unfold count_midi_from_file
    rw [foldl_midiStep, zero_add]
  refine ⟨h1, ?_, ?_, ?_⟩
  · rw [h1]
    simp
  · intro k
    rw [h1]
    simp
  · intro v
    cases v with
    | nan => simp [keepPitch]
    | inf => simp [keepPitch]
    | val x =>
      by_cases hx : x = 0
      · simp [keepPitch, hx]
      · simp [keepPitch, hx]

end FishAudio
